import Mathlib

/-!
Verification development for the hybrid code-entity search/storage engine
described by this repository's observable contract, together with two small
fixture functions that ship in the source tree.

The engine itself (the `MillerDatabase` class and the entity schema/factory)
is exercised by `fixtures/real-world/python/test_database.py`; its
implementation is not part of the source tree, so the engine is modelled
from the specification here.  The two fixture files under
`fixtures/editing/` are translated directly from their source.
-/

namespace Julie

/-- Fixture function translated from
`fixtures/editing/controls/line-edit/line_edit_replace_function_only.py`:
`calculate_average` sums the elements with a loop and returns
`total / len(numbers) if numbers else 0`.  Python `/` is true division, so
the numbers are modelled as rationals. -/
def calculate_average (numbers : List Rat) : Rat :=
  if numbers ≠ [] then (numbers.foldl (fun a n => a + n) 0) / (numbers.length : Rat) else 0

/-- Python exception raised by the fixture code. -/
inductive PyError where
  | valueError (msg : String)
deriving DecidableEq

/-- The mapping returned by `DataProcessor.process_data` on success. -/
structure ProcessOutput where
  result : String
  status : String
deriving DecidableEq

/-- Fixture method translated from
`fixtures/editing/controls/fast-edit/edge_cases_todo_replaced.py`:
`DataProcessor.process_data` returns `None` for a falsy (empty) input,
raises `ValueError("Invalid input data")` when the input starts with
`"ERROR"`, and otherwise returns the success mapping.  `startswith` is
modelled by character-list matching. -/
def process_data (input_data : String) : Except PyError (Option ProcessOutput) :=
  if input_data = "" then .ok none
  else if "ERROR".data.isPrefixOf input_data.data then
    .error (.valueError "Invalid input data")
  else .ok (some { result := input_data, status := "success" })

/-- Modelled from the spec: the persisted `CodeEntity` record (§3 of the
spec); the implementation module `miller/database/schema.py` is not in the
source tree.  Required fields are concrete, the optional structured fields
(`parameters`, `returns`, `extends`, `implements`, `calls`) are JSON blobs
carried as optional strings as in the test fixtures, the correlation keys
are optional string lists, and `embedding` is the fixed-length vector that
is always present after ingestion.  Embedding components are modelled as
integers standing in for the 384 floats. -/
structure CodeEntity where
  id : String
  name : String
  fqn : String
  kind : String
  content : String
  signature : String
  file : String
  line_start : Int
  line_end : Int
  language : String
  parameters : Option String
  returnsInfo : Option String
  extendsList : Option String
  implementsList : Option String
  callsList : Option String
  api_endpoints : Option (List String)
  db_tables : Option (List String)
  embedding : List Int
deriving DecidableEq

/-- Modelled from the spec: an ingestion payload (§6), a mapping in which
every field may be absent.  Unknown keys are ignored by the engine, so the
model carries exactly the known fields. -/
structure EntityPayload where
  id : Option String
  name : Option String
  fqn : Option String
  kind : Option String
  content : Option String
  signature : Option String
  file : Option String
  line_start : Option Int
  line_end : Option Int
  language : Option String
  parameters : Option String
  returnsInfo : Option String
  extendsList : Option String
  implementsList : Option String
  callsList : Option String
  api_endpoints : Option (List String)
  db_tables : Option (List String)
  embedding : Option (List Int)
deriving DecidableEq

/-- Modelled from the spec: the database error taxonomy (§7) restricted to
the caller-visible errors the model distinguishes: `NotInitializedError`
and `ValidationError` (the latter identifying the missing fields). -/
inductive DBError where
  | notInitialized
  | validationFailed (missing : List String)
deriving DecidableEq

/-- Modelled from the spec: the `MillerDatabase` state
(`miller/database/lance_db.py` is not in the source tree).  `inited`
records whether `initialize()` has succeeded, `table` is the entity corpus
keyed by `id`, and `faulty` models a transient backend fault of an already
opened store (§7 `BackendFault`). -/
structure MillerDatabase where
  inited : Bool
  table : List CodeEntity
  faulty : Bool
deriving DecidableEq

/-- Modelled from the spec: the black-box embedding function
`embed(text) -> vector[384]` (§4.2): deterministic in its input and of
fixed output dimension 384.  A concrete pure function is used. -/
def embed (text : String) : List Int :=
  (List.range 384).map (fun i => ((text.length + i : Nat) : Int))

/-- Modelled from the spec: the required ingestion fields of §3 that are
missing from a payload (`id, name, fqn, kind, content, file, line_start`). -/
def missingFields (p : EntityPayload) : List String :=
  (if p.id.isNone then ["id"] else []) ++
  (if p.name.isNone then ["name"] else []) ++
  (if p.fqn.isNone then ["fqn"] else []) ++
  (if p.kind.isNone then ["kind"] else []) ++
  (if p.content.isNone then ["content"] else []) ++
  (if p.file.isNone then ["file"] else []) ++
  (if p.line_start.isNone then ["line_start"] else [])

/-- Modelled from the spec: the embedding attached at ingestion (§3, §4.2):
a supplied vector is preserved verbatim, an absent one is generated by the
adapter `f` from the entity's content. -/
def resolveEmb (f : String → List Int) (p : EntityPayload) (c : String) : List Int :=
  match p.embedding with
  | some v => v
  | none => f c

/-- Modelled from the spec: validation and record construction (§3, §4.3).
A payload missing any required field yields `none`; otherwise the persisted
record is built, provided fields preserved and the absent optional scalar
fields defaulted. -/
def buildEntityWith (f : String → List Int) (p : EntityPayload) : Option CodeEntity :=
  match p.id, p.name, p.fqn, p.kind, p.content, p.file, p.line_start with
  | some i, some n, some q, some k, some c, some fl, some ls =>
      some
        { id := i
          name := n
          fqn := q
          kind := k
          content := c
          signature := p.signature.getD ""
          file := fl
          line_start := ls
          line_end := p.line_end.getD ls
          language := p.language.getD ""
          parameters := p.parameters
          returnsInfo := p.returnsInfo
          extendsList := p.extendsList
          implementsList := p.implementsList
          callsList := p.callsList
          api_endpoints := p.api_endpoints
          db_tables := p.db_tables
          embedding := resolveEmb f p c }
  | _, _, _, _, _, _, _ => none

/-- Modelled from the spec: the Storage Engine upsert primitive (§4.1):
a write with a colliding `id` replaces the prior record (last-write-wins);
the corpus stays keyed by `id`. -/
def upsert (t : List CodeEntity) (e : CodeEntity) : List CodeEntity :=
  e :: t.filter (fun x => x.id ≠ e.id)

/-- The ids present in a corpus, in order. -/
def tableIds (t : List CodeEntity) : List String :=
  t.map (fun e => e.id)

/-- The ids of the records a list of payloads would persist (invalid
payloads contribute nothing). -/
def builtIds (f : String → List Int) (ps : List EntityPayload) : List String :=
  ps.filterMap (fun p => (buildEntityWith f p).map (fun e => e.id))

/-- Modelled from the spec: `initialize()` (§4.1) brings the store up; it is
idempotent and preserves existing data.  (Failure to open the backing
store, `ConnectionError`, is outside this model.) -/
def initDB (db : MillerDatabase) : MillerDatabase :=
  { db with inited := true }

/-- Modelled from the spec: `add_entity` (§4.3), parametrised by the
embedding adapter so that non-invocation of the adapter is expressible.
Requires initialization, validates, attaches an embedding when absent,
then upserts; returns the persisted record. -/
def add_entityWith (f : String → List Int) (db : MillerDatabase) (p : EntityPayload) :
    Except DBError (MillerDatabase × CodeEntity) :=
  if db.inited then
    match buildEntityWith f p with
    | some e => .ok ({ db with table := upsert db.table e }, e)
    | none => .error (.validationFailed (missingFields p))
  else .error .notInitialized

/-- Modelled from the spec: `add_entity` with the real embedding adapter. -/
def add_entity (db : MillerDatabase) (p : EntityPayload) :
    Except DBError (MillerDatabase × CodeEntity) :=
  add_entityWith embed db p

/-- Modelled from the spec: the state/count fold of `add_entities_batch`
(§4.3): each item is validated and embedded independently; an invalid item
is skipped, a valid one is upserted and counted. -/
def batchStep (f : String → List Int) (acc : MillerDatabase × Nat) (p : EntityPayload) :
    MillerDatabase × Nat :=
  match buildEntityWith f p with
  | some e => ({ acc.1 with table := upsert acc.1.table e }, acc.2 + 1)
  | none => acc

/-- Modelled from the spec: `add_entities_batch` (§4.3): requires
initialization, then folds `batchStep` over the payloads and returns the
count of items successfully persisted. -/
def add_entities_batchWith (f : String → List Int) (db : MillerDatabase)
    (ps : List EntityPayload) : Except DBError (MillerDatabase × Nat) :=
  if db.inited then .ok (ps.foldl (batchStep f) (db, 0))
  else .error .notInitialized

/-- Modelled from the spec: `add_entities_batch` with the real adapter. -/
def add_entities_batch (db : MillerDatabase) (ps : List EntityPayload) :
    Except DBError (MillerDatabase × Nat) :=
  add_entities_batchWith embed db ps

/-- Modelled from the spec: `get_entity_by_id` (§4.1): requires
initialization; a point lookup returning an explicit not-found signal
(`none`) for unknown ids, never an error. -/
def get_entity_by_id (db : MillerDatabase) (i : String) :
    Except DBError (Option CodeEntity) :=
  if db.inited then .ok (db.table.find? (fun e => e.id == i))
  else .error .notInitialized

/-- Substring test over the underlying character lists: `sub` occurs in `s`
iff it prefixes some tail of `s`. -/
def strContains (s sub : String) : Bool :=
  s.data.tails.any (fun t => sub.data.isPrefixOf t)

/-- Modelled from the spec: the lexical match predicate of `text_search`
(§4.4): substring matching over `content`, `signature`, `name` and the
correlation fields `api_endpoints` and `db_tables`. -/
def lexMatch (q : String) (e : CodeEntity) : Bool :=
  strContains e.content q || strContains e.signature q || strContains e.name q ||
  (e.api_endpoints.getD []).any (fun a => strContains a q) ||
  (e.db_tables.getD []).any (fun a => strContains a q)

/-- Modelled from the spec: the result list of `text_search` on an opened
store (§4.4): the matching entities capped at `limit`; a backend fault
degrades to the empty list. -/
def textRaw (db : MillerDatabase) (q : String) (limit : Nat) : List CodeEntity :=
  if db.faulty then [] else (db.table.filter (lexMatch q)).take limit

/-- Modelled from the spec: `text_search` (§4.4): `NotInitializedError`
before initialization, otherwise the (possibly degraded) result list. -/
def text_search (db : MillerDatabase) (q : String) (limit : Nat) :
    Except DBError (List CodeEntity) :=
  if db.inited then .ok (textRaw db q limit) else .error .notInitialized

/-- Squared euclidean distance between two integer vectors, the vector
proximity used to rank semantic results. -/
def dist2 (a b : List Int) : Int :=
  (List.zipWith (fun x y => (x - y) * (x - y)) a b).foldl (fun s d => s + d) 0

/-- Modelled from the spec: the result list of `semantic_search` on an
opened store (§4.4): the corpus ranked by proximity of its embeddings to
the embedded query (nearest first), capped at `limit`; a backend fault
degrades to the empty list. -/
def semRaw (db : MillerDatabase) (q : String) (limit : Nat) : List CodeEntity :=
  if db.faulty then []
  else
    (db.table.insertionSort
      (fun a b => dist2 (embed q) a.embedding ≤ dist2 (embed q) b.embedding)).take limit

/-- Modelled from the spec: `semantic_search` (§4.4): `NotInitializedError`
before initialization, otherwise the (possibly degraded) ranked list. -/
def semantic_search (db : MillerDatabase) (q : String) (limit : Nat) :
    Except DBError (List CodeEntity) :=
  if db.inited then .ok (semRaw db q limit) else .error .notInitialized

/-- Modelled from the spec: the hybrid search response (§6): both raw
result lists plus the deduplicated id-union size. -/
structure HybridResult where
  text : List CodeEntity
  semantic : List CodeEntity
  combined_count : Nat
deriving DecidableEq

/-- Modelled from the spec: the hybrid response computed on an opened store
(§4.4): both modes run with the default limit 50, `combined_count` is the
number of distinct entity ids occurring in either list. -/
def hybridRaw (db : MillerDatabase) (q : String) : HybridResult :=
  { text := textRaw db q 50
    semantic := semRaw db q 50
    combined_count := ((tableIds (textRaw db q 50)) ++ (tableIds (semRaw db q 50))).dedup.length }

/-- Modelled from the spec: `hybrid_search` (§4.4): `NotInitializedError`
before initialization, otherwise both raw lists and the union size. -/
def hybrid_search (db : MillerDatabase) (q : String) :
    Except DBError HybridResult :=
  if db.inited then .ok (hybridRaw db q) else .error .notInitialized

/-- Modelled from the spec: the statistics snapshot (§3). `last_updated`
is a computation timestamp, modelled as a constant. -/
structure Statistics where
  total_entities : Nat
  entities_by_kind : List (String × Nat)
  entities_by_language : List (String × Nat)
  total_files : Nat
  index_size_mb : Rat
  last_updated : Nat
deriving DecidableEq

/-- Modelled from the spec: the zeroed/default snapshot returned when an
underlying call fails (§4.5). -/
def zeroStats : Statistics :=
  { total_entities := 0
    entities_by_kind := []
    entities_by_language := []
    total_files := 0
    index_size_mb := 0
    last_updated := 0 }

/-- Group the corpus by a string-valued field, giving each distinct value
its number of occurrences. -/
def countBy (f : CodeEntity → String) (t : List CodeEntity) : List (String × Nat) :=
  ((t.map f).dedup).map (fun k => (k, (t.filter (fun e => f e == k)).length))

/-- Modelled from the spec: the snapshot computed over an opened store
(§4.5); the index size grows with the corpus. -/
def computeStats (t : List CodeEntity) : Statistics :=
  { total_entities := t.length
    entities_by_kind := countBy (fun e => e.kind) t
    entities_by_language := countBy (fun e => e.language) t
    total_files := ((t.map (fun e => e.file)).dedup).length
    index_size_mb := (t.length : Rat) / 1024
    last_updated := 0 }

/-- Modelled from the spec: `get_statistics` (§4.5): `NotInitializedError`
before initialization; a fault of the opened backend degrades to the
zeroed snapshot, otherwise the aggregate snapshot is computed. -/
def get_statistics (db : MillerDatabase) : Except DBError Statistics :=
  if db.inited then
    if db.faulty then .ok zeroStats else .ok (computeStats db.table)
  else .error .notInitialized

/-- Modelled from the spec: `CodeEntityFactory.create_function`
(`miller/database/schema.py` is not in the source tree): derives the id as
`func_{file}_{name}_{line_start}` and the fqn as `file::name` (§3). -/
def create_function (name content file : String) (line_start line_end : Int)
    (language : String) (parameters returnsInfo : Option String) : CodeEntity :=
  { id := "func_" ++ file ++ "_" ++ name ++ "_" ++ toString line_start
    name := name
    fqn := file ++ "::" ++ name
    kind := "function"
    content := content
    signature := content
    file := file
    line_start := line_start
    line_end := line_end
    language := language
    parameters := parameters
    returnsInfo := returnsInfo
    extendsList := none
    implementsList := none
    callsList := none
    api_endpoints := none
    db_tables := none
    embedding := embed content }

/-- Modelled from the spec: `CodeEntityFactory.create_class`: derives the
id as `class_{file}_{name}_{line_start}` and the fqn as `file::name` (§3). -/
def create_class (name content file : String) (line_start line_end : Int)
    (language : String) (extendsList implementsList : Option String) : CodeEntity :=
  { id := "class_" ++ file ++ "_" ++ name ++ "_" ++ toString line_start
    name := name
    fqn := file ++ "::" ++ name
    kind := "class"
    content := content
    signature := content
    file := file
    line_start := line_start
    line_end := line_end
    language := language
    parameters := none
    returnsInfo := none
    extendsList := extendsList
    implementsList := implementsList
    callsList := none
    api_endpoints := none
    db_tables := none
    embedding := embed content }

/-- Modelled from the spec: one step of a concurrent execution of two batch
ingestions (§5): the tag records which of the two calls the item belongs
to; a valid item is upserted and counted towards its call, an invalid one
is skipped.  Validation and embedding are pure, so a step is atomic at the
Storage Engine write. -/
def concStep (f : String → List Int) (acc : MillerDatabase × Nat × Nat)
    (it : Bool × EntityPayload) : MillerDatabase × Nat × Nat :=
  match buildEntityWith f it.2 with
  | some e =>
      ({ acc.1 with table := upsert acc.1.table e },
       if it.1 then acc.2.1 + 1 else acc.2.1,
       if it.1 then acc.2.2 else acc.2.2 + 1)
  | none => acc

/-- Modelled from the spec: a complete interleaved execution of two batch
calls against one store, returning the final store and the two returned
counts. -/
def runConcurrent (f : String → List Int) (db : MillerDatabase)
    (z : List (Bool × EntityPayload)) : MillerDatabase × Nat × Nat :=
  z.foldl (concStep f) (db, 0, 0)

/-- All order-preserving interleavings of two lists: the schedules a
concurrent execution of the two batches may follow. -/
def interleavings {α : Type} : List α → List α → List (List α)
  | [], ys => [ys]
  | x :: xs, [] => [x :: xs]
  | x :: xs, y :: ys =>
      (interleavings xs (y :: ys)).map (fun l => x :: l) ++
      (interleavings (x :: xs) ys).map (fun l => y :: l)
termination_by xs ys => xs.length + ys.length

/-- A store that was never initialized. -/
def dbOff : MillerDatabase :=
  { inited := false, table := [], faulty := false }

/-- A freshly initialized, healthy, empty store. -/
def dbOn : MillerDatabase :=
  { inited := true, table := [], faulty := false }

/-- An initialized store whose backend is faulting. -/
def dbFaulty : MillerDatabase :=
  { inited := true, table := [], faulty := true }

/-- A payload with every field absent (invalid). -/
def emptyPayload : EntityPayload :=
  { id := none, name := none, fqn := none, kind := none, content := none,
    signature := none, file := none, line_start := none, line_end := none,
    language := none, parameters := none, returnsInfo := none,
    extendsList := none, implementsList := none, callsList := none,
    api_endpoints := none, db_tables := none, embedding := none }

/-- A valid payload without an embedding. -/
def payloadW : EntityPayload :=
  { emptyPayload with
    id := some "test_embedding", name := some "test_func",
    fqn := some "test::test_func", kind := some "function",
    content := some "def test_func(): pass", signature := some "def test_func():",
    file := some "test.py", line_start := some 1, line_end := some 1,
    language := some "python" }

/-- A valid payload carrying its own embedding vector. -/
def payloadE : EntityPayload :=
  { payloadW with
    id := some "test_custom_embedding",
    embedding := some (List.replicate 384 1) }

/-- An invalid payload carrying only an id, as in the batch test. -/
def invalidW : EntityPayload :=
  { emptyPayload with id := some "invalid_entity" }

/-- A fallback record for extracting build results. -/
def entFallback : CodeEntity :=
  create_function "x" "x" "x" 0 0 "x" none none

/-- The record persisted for `payloadW`. -/
def entW : CodeEntity :=
  (buildEntityWith embed payloadW).getD entFallback

/-- The record persisted for `payloadE`. -/
def entE : CodeEntity :=
  (buildEntityWith embed payloadE).getD entFallback

/-- The store after ingesting `payloadW` into `dbOn`. -/
def dbW : MillerDatabase :=
  { inited := true, table := upsert [] entW, faulty := false }

/-- The store after ingesting `payloadE` into `dbOn`. -/
def dbE : MillerDatabase :=
  { inited := true, table := upsert [] entE, faulty := false }

/-- An initialized one-entity store for exercising hybrid search. -/
def dbH : MillerDatabase :=
  { inited := true, table := [entW], faulty := false }

/-- A valid payload with the id used by the batch test. -/
def pV : EntityPayload :=
  { payloadW with id := some "valid_entity" }

/-- The record persisted for `pV`. -/
def entV : CodeEntity :=
  (buildEntityWith embed pV).getD entFallback

/-- The batch used by the batch-independence witness: one valid and one
invalid item, with distinct ids. -/
def psW : List EntityPayload :=
  [pV, invalidW]

/-- A family of distinct valid payloads used by the concurrency witness. -/
def mkP (tag : String) (i : Nat) : EntityPayload :=
  { emptyPayload with
    id := some (tag ++ toString i), name := some ("f_" ++ toString i),
    fqn := some ("t.py::f_" ++ toString i), kind := some "function",
    content := some "def f(): pass", signature := some "def f():",
    file := some "t.py", line_start := some (i : Int), line_end := some (i : Int),
    language := some "python" }

/-- First concurrent batch: ten payloads with ids `a0` … `a9`. -/
def b1W : List EntityPayload :=
  (List.range 10).map (mkP "a")

/-- Second concurrent batch: ten payloads with ids `b0` … `b9`. -/
def b2W : List EntityPayload :=
  (List.range 10).map (mkP "b")

/-- A particular schedule of the two concurrent batches. -/
def zW : List (Bool × EntityPayload) :=
  b1W.map (fun p => (true, p)) ++ b2W.map (fun p => (false, p))

/-! ## Theorems -/

theorem foldl_add_eq_sum (l : List Rat) (a : Rat) :
    l.foldl (fun x y => x + y) a = a + l.sum := by
  induction l generalizing a with
  | nil => simp
  | cons x l ih => rw [List.foldl_cons, ih, List.sum_cons]; ring

/-- C9: `calculate_average` is total — on a non-empty list it returns the sum
of the elements divided by the length, and on the empty list it returns `0`
without ever dividing by zero. -/
theorem calculate_average_spec (numbers : List Rat) :
    (numbers = [] → calculate_average numbers = 0) ∧
    (numbers ≠ [] → calculate_average numbers = numbers.sum / (numbers.length : Rat)) := by
  constructor
  · intro h
    simp [calculate_average, h]
  · intro h
    simp only [calculate_average, if_pos h]
    rw [foldl_add_eq_sum]
    ring_nf

/-- Witness for C9 at the concrete inputs `[]` and `[1, 2]`. -/
theorem calculate_average_spec_witness :
    calculate_average [] = 0 ∧ calculate_average [1, 2] = 3 / 2 := by
  refine ⟨(calculate_average_spec []).1 rfl, ?_⟩
  rw [(calculate_average_spec [1, 2]).2 (by simp)]
  norm_num

/-- C10: `process_data` returns `None` exactly on the empty input, raises
`ValueError` exactly when the input is non-empty and starts with `"ERROR"`,
and otherwise returns the mapping `{result: input, status: "success"}`. -/
theorem process_data_spec (s : String) :
    (process_data s = .ok none ↔ s = "") ∧
    ((∃ m, process_data s = .error (.valueError m)) ↔
      (s ≠ "" ∧ "ERROR".data.isPrefixOf s.data = true)) ∧
    (s ≠ "" → "ERROR".data.isPrefixOf s.data = false →
      process_data s = .ok (some { result := s, status := "success" })) := by
  by_cases h : s = ""
  · subst h
    refine ⟨by simp [process_data], ?_, by simp⟩
    simp [process_data]
  · by_cases he : "ERROR".data.isPrefixOf s.data = true
    · refine ⟨?_, ?_, ?_⟩
      · simp [process_data, h, he]
      · simp [process_data, h, he]
      · intro _ hf; rw [he] at hf; cases hf
    · refine ⟨?_, ?_, ?_⟩
      · simp [process_data, h, he]
      · simp [process_data, h, he]
      · intro _ _; simp [process_data, h, he]

/-- Witness for C10 at the concrete inputs `""`, `"ERROR1"` and `"ok"`. -/
theorem process_data_spec_witness :
    process_data "" = .ok none ∧
    (∃ m, process_data "ERROR1" = .error (.valueError m)) ∧
    process_data "ok" = .ok (some { result := "ok", status := "success" }) :=
  ⟨(process_data_spec "").1.mpr rfl,
   (process_data_spec "ERROR1").2.1.mpr ⟨by decide, by decide⟩,
   (process_data_spec "ok").2.2 (by decide) (by decide)⟩

theorem embed_length (text : String) : (embed text).length = 384 := by
  unfold embed
  rw [List.length_map, List.length_range]

/-- C7: the factory derives the id as `{kind_prefix}_{file}_{name}_{line_start}`
with prefix `func` for functions and `class` for classes, and the fqn as
`file::name`; in particular a function `test_func` in `test.py` starting at
line 5 gets the id `func_test.py_test_func_5`. -/
theorem factory_id_and_fqn (name content file : String) (ls le : Int)
    (language : String) (ps rs el il : Option String) :
    (create_function name content file ls le language ps rs).id =
      "func_" ++ file ++ "_" ++ name ++ "_" ++ toString ls ∧
    (create_function name content file ls le language ps rs).fqn = file ++ "::" ++ name ∧
    (create_function name content file ls le language ps rs).kind = "function" ∧
    (create_class name content file ls le language el il).id =
      "class_" ++ file ++ "_" ++ name ++ "_" ++ toString ls ∧
    (create_class name content file ls le language el il).fqn = file ++ "::" ++ name ∧
    (create_class name content file ls le language el il).kind = "class" ∧
    (create_function "test_func" "def test_func(): pass" "test.py" 5 6 "python" none none).id =
      "func_test.py_test_func_5" ∧
    (create_class "TestClass" "class TestClass: pass" "test.py" 10 11 "python" none none).id =
      "class_test.py_TestClass_10" :=
  ⟨rfl, rfl, rfl, rfl, rfl, rfl, by decide, by decide⟩

/-- C3: every data-access operation invoked before a successful initialize
fails with `NotInitializedError`, and after initialization the same
operation never yields `NotInitializedError` again. -/
theorem requires_init_before_access (db : MillerDatabase) (q i : String)
    (lim : Nat) (p : EntityPayload) (ps : List EntityPayload) :
    (db.inited = false →
      text_search db q lim = .error .notInitialized ∧
      semantic_search db q lim = .error .notInitialized ∧
      add_entity db p = .error .notInitialized ∧
      add_entities_batch db ps = .error .notInitialized ∧
      get_entity_by_id db i = .error .notInitialized ∧
      get_statistics db = .error .notInitialized) ∧
    (db.inited = true →
      text_search db q lim ≠ .error .notInitialized ∧
      semantic_search db q lim ≠ .error .notInitialized ∧
      add_entity db p ≠ .error .notInitialized ∧
      add_entities_batch db ps ≠ .error .notInitialized ∧
      get_entity_by_id db i ≠ .error .notInitialized ∧
      get_statistics db ≠ .error .notInitialized) := by
  constructor
  · intro h
    refine ⟨?_, ?_, ?_, ?_, ?_, ?_⟩ <;>
      simp [text_search, semantic_search, add_entity, add_entityWith,
        add_entities_batch, add_entities_batchWith, get_entity_by_id,
        get_statistics, h]
  · intro h
    refine ⟨?_, ?_, ?_, ?_, ?_, ?_⟩ <;>
      simp only [text_search, semantic_search, add_entity, add_entityWith,
        add_entities_batch, add_entities_batchWith, get_entity_by_id,
        get_statistics, h, if_true] <;>
      first
        | (intro hc; cases hc)
        | (split <;> intro hc <;> cases hc)

/-- Witness for C3: a search on an uninitialized store errors, a statistics
call on an initialized store does not. -/
theorem requires_init_before_access_witness :
    text_search dbOff "q" 10 = .error .notInitialized ∧
    get_statistics dbOn ≠ .error .notInitialized :=
  ⟨((requires_init_before_access dbOff "q" "i" 10 emptyPayload []).1 rfl).1,
   ((requires_init_before_access dbOn "q" "i" 10 emptyPayload []).2 rfl).2.2.2.2.2⟩

/-- C4: on an initialized store, `text_search`, `semantic_search` and
`get_statistics` never surface a backend exception; when the backend
faults they degrade to the empty list, the empty list, and the zeroed
default snapshot respectively. -/
theorem faults_degrade_gracefully (db : MillerDatabase) (q : String) (lim : Nat)
    (hinit : db.inited = true) :
    (∀ er, text_search db q lim ≠ .error er) ∧
    (∀ er, semantic_search db q lim ≠ .error er) ∧
    (∀ er, get_statistics db ≠ .error er) ∧
    (db.faulty = true →
      text_search db q lim = .ok [] ∧
      semantic_search db q lim = .ok [] ∧
      get_statistics db = .ok zeroStats) := by
  refine ⟨?_, ?_, ?_, ?_⟩
  · intro er hc
    rw [text_search, if_pos hinit] at hc
    cases hc
  · intro er hc
    rw [semantic_search, if_pos hinit] at hc
    cases hc
  · intro er hc
    rw [get_statistics, if_pos hinit] at hc
    split at hc <;> cases hc
  · intro hf
    refine ⟨?_, ?_, ?_⟩ <;>
      simp [text_search, semantic_search, get_statistics, textRaw, semRaw, hinit, hf]

/-- Witness for C4 on a concrete faulting initialized store. -/
theorem faults_degrade_gracefully_witness :
    text_search dbFaulty "q" 10 = .ok [] ∧
    semantic_search dbFaulty "q" 10 = .ok [] ∧
    get_statistics dbFaulty = .ok zeroStats :=
  (faults_degrade_gracefully dbFaulty "q" 10 rfl).2.2.2 rfl

theorem find?_upsert (t : List CodeEntity) (e : CodeEntity) :
    (upsert t e).find? (fun x => x.id == e.id) = some e := by
  rw [upsert]
  exact List.find?_cons_of_pos _ (by simp)

theorem buildEntityWith_inv (f : String → List Int) (p : EntityPayload) (e : CodeEntity)
    (h : buildEntityWith f p = some e) :
    p.id = some e.id ∧ p.name = some e.name ∧ p.fqn = some e.fqn ∧
    p.kind = some e.kind ∧ p.content = some e.content ∧ p.file = some e.file ∧
    p.line_start = some e.line_start ∧ e.signature = p.signature.getD "" ∧
    e.line_end = p.line_end.getD e.line_start ∧ e.language = p.language.getD "" ∧
    e.parameters = p.parameters ∧ e.returnsInfo = p.returnsInfo ∧
    e.extendsList = p.extendsList ∧ e.implementsList = p.implementsList ∧
    e.callsList = p.callsList ∧ e.api_endpoints = p.api_endpoints ∧
    e.db_tables = p.db_tables ∧ e.embedding = resolveEmb f p e.content := by
  obtain ⟨pid, pn, pq, pk, pc, psg, pfl, pls, ple, plg, ppa, pre, pex, pim, pca, pap, pdb, pem⟩ := p
  cases pid <;> cases pn <;> cases pq <;> cases pk <;> cases pc <;> cases pfl <;> cases pls <;>
    simp only [buildEntityWith] at h <;>
    first
    | exact Option.noConfusion h
    | (injection h with h
       subst h
       exact ⟨rfl, rfl, rfl, rfl, rfl, rfl, rfl, rfl, rfl, rfl, rfl, rfl, rfl, rfl, rfl,
         rfl, rfl, rfl⟩)

theorem buildEntityWith_indep (f g : String → List Int) (p : EntityPayload)
    (v : List Int) (hemb : p.embedding = some v) :
    buildEntityWith f p = buildEntityWith g p := by
  obtain ⟨pid, pn, pq, pk, pc, psg, pfl, pls, ple, plg, ppa, pre, pex, pim, pca, pap, pdb, pem⟩ := p
  cases pid <;> cases pn <;> cases pq <;> cases pk <;> cases pc <;> cases pfl <;> cases pls <;>
    simp_all [buildEntityWith, resolveEmb]

theorem add_entityWith_ok_inv (f : String → List Int) (db : MillerDatabase)
    (p : EntityPayload) (db' : MillerDatabase) (e : CodeEntity)
    (h : add_entityWith f db p = .ok (db', e)) :
    db.inited = true ∧ buildEntityWith f p = some e ∧
    db' = { db with table := upsert db.table e } := by
  by_cases hi : db.inited
  · rw [add_entityWith, if_pos hi] at h
    cases hb : buildEntityWith f p with
    | some e0 =>
        rw [hb] at h
        simp only [Except.ok.injEq, Prod.mk.injEq] at h
        obtain ⟨h1, h2⟩ := h
        subst h2
        exact ⟨hi, rfl, h1.symm⟩
    | none => rw [hb] at h; cases h
  · rw [add_entityWith, if_neg hi] at h
    cases h

/-- C5: a supplied embedding is stored verbatim — the ingested record and
the record later retrieved carry exactly the supplied vector — and the
embedding adapter is never invoked: `add_entity` computes the same result
under any two adapters. -/
theorem embedding_preserved_verbatim (db : MillerDatabase) (p : EntityPayload)
    (v : List Int) (hemb : p.embedding = some v) :
    (∀ f g, add_entityWith f db p = add_entityWith g db p) ∧
    (∀ db' e, add_entity db p = .ok (db', e) →
      e.embedding = v ∧ get_entity_by_id db' e.id = .ok (some e)) := by
  constructor
  · intro f g
    rw [add_entityWith, add_entityWith, buildEntityWith_indep f g p v hemb]
  · intro db' e h
    obtain ⟨hi, hb, hdb⟩ := add_entityWith_ok_inv embed db p db' e h
    have hinv := buildEntityWith_inv embed p e hb
    constructor
    · rw [hinv.2.2.2.2.2.2.2.2.2.2.2.2.2.2.2.2.2]
      simp [resolveEmb, hemb]
    · subst hdb
      simp [get_entity_by_id, hi, find?_upsert]

/-- Witness for C5: the custom vector survives ingestion and the adapter is
irrelevant for the payload that supplies it. -/
theorem embedding_preserved_verbatim_witness :
    entE.embedding = List.replicate 384 1 ∧
    add_entityWith (fun _ => []) dbOn payloadE = add_entityWith embed dbOn payloadE := by
  have hm := embedding_preserved_verbatim dbOn payloadE (List.replicate 384 1) rfl
  have h : add_entity dbOn payloadE = .ok (dbE, entE) := rfl
  exact ⟨(hm.2 dbE entE h).1, hm.1 (fun _ => []) embed⟩

/-- C1: a valid payload ingested by `add_entity` on an initialized store is
retrievable by its id, the retrieved record agrees with the payload on
every provided field, and its embedding is present with exactly 384
components (generated at ingestion when the payload supplies none). -/
theorem add_entity_roundtrip (db : MillerDatabase) (p : EntityPayload)
    (db' : MillerDatabase) (e : CodeEntity)
    (hemb : ∀ v, p.embedding = some v → v.length = 384)
    (h : add_entity db p = .ok (db', e)) :
    get_entity_by_id db' e.id = .ok (some e) ∧
    p.id = some e.id ∧ p.name = some e.name ∧ p.fqn = some e.fqn ∧
    p.kind = some e.kind ∧ p.content = some e.content ∧ p.file = some e.file ∧
    p.line_start = some e.line_start ∧
    (∀ v, p.signature = some v → e.signature = v) ∧
    (∀ v, p.line_end = some v → e.line_end = v) ∧
    (∀ v, p.language = some v → e.language = v) ∧
    e.parameters = p.parameters ∧ e.returnsInfo = p.returnsInfo ∧
    e.extendsList = p.extendsList ∧ e.implementsList = p.implementsList ∧
    e.callsList = p.callsList ∧ e.api_endpoints = p.api_endpoints ∧
    e.db_tables = p.db_tables ∧
    (∀ v, p.embedding = some v → e.embedding = v) ∧
    e.embedding.length = 384 := by
  obtain ⟨hi, hb, hdb⟩ := add_entityWith_ok_inv embed db p db' e h
  obtain ⟨h1, h2, h3, h4, h5, h6, h7, h8, h9, h10, h11, h12, h13, h14, h15, h16, h17, h18⟩ :=
    buildEntityWith_inv embed p e hb
  refine ⟨?_, h1, h2, h3, h4, h5, h6, h7, ?_, ?_, ?_, h11, h12, h13, h14, h15, h16, h17, ?_, ?_⟩
  · subst hdb
    simp [get_entity_by_id, hi, find?_upsert]
  · intro v hv; rw [h8, hv]; rfl
  · intro v hv; rw [h9, hv]; rfl
  · intro v hv; rw [h10, hv]; rfl
  · intro v hv; rw [h18]; simp [resolveEmb, hv]
  · rw [h18]
    cases hpe : p.embedding with
    | some v =>
        simp only [resolveEmb, hpe]
        exact hemb v hpe
    | none => simp [resolveEmb, hpe, embed_length]

/-- Witness for C1: the concrete payload of the embedding-generation test is
retrievable after ingestion and its generated embedding has 384 components. -/
theorem add_entity_roundtrip_witness :
    get_entity_by_id dbW entW.id = .ok (some entW) ∧ entW.embedding.length = 384 := by
  have hemb : ∀ v, payloadW.embedding = some v → v.length = 384 := by
    intro v hv
    rw [show payloadW.embedding = none from rfl] at hv
    cases hv
  have h : add_entity dbOn payloadW = .ok (dbW, entW) := rfl
  obtain ⟨g1, _, _, _, _, _, _, _, _, _, _, _, _, _, _, _, _, _, _, g20⟩ :=
    add_entity_roundtrip dbOn payloadW dbW entW hemb h
  exact ⟨g1, g20⟩

theorem mem_tableIds_upsert (t : List CodeEntity) (e : CodeEntity) (i : String) :
    i ∈ tableIds (upsert t e) ↔ i = e.id ∨ i ∈ tableIds t := by
  simp only [tableIds, upsert, List.map_cons, List.mem_cons, List.mem_map, List.mem_filter,
    decide_eq_true_eq]
  constructor
  · rintro (h | ⟨x, ⟨hx, _⟩, rfl⟩)
    · exact Or.inl h
    · exact Or.inr ⟨x, hx, rfl⟩
  · rintro (h | ⟨x, hx, rfl⟩)
    · exact Or.inl h
    · by_cases hxe : x.id = e.id
      · exact Or.inl hxe
      · exact Or.inr ⟨x, ⟨hx, hxe⟩, rfl⟩

theorem find?_eq_none_iff_ids (t : List CodeEntity) (i : String) :
    t.find? (fun e => e.id == i) = none ↔ i ∉ tableIds t := by
  rw [List.find?_eq_none]
  unfold tableIds
  constructor
  · intro h hmem
    obtain ⟨x, hx, hxi⟩ := List.mem_map.mp hmem
    exact h x hx (by simp [hxi])
  · intro h x hx hbeq
    exact h (List.mem_map.mpr ⟨x, hx, by simpa using hbeq⟩)

theorem find?_isSome_of_mem_ids (t : List CodeEntity) (i : String)
    (h : i ∈ tableIds t) : ∃ x, t.find? (fun e => e.id == i) = some x := by
  cases hf : t.find? (fun e => e.id == i) with
  | some x => exact ⟨x, rfl⟩
  | none => exact absurd h ((find?_eq_none_iff_ids t i).mp hf)

theorem batch_foldl_count (f : String → List Int) (ps : List EntityPayload)
    (db : MillerDatabase) (n : Nat) :
    (ps.foldl (batchStep f) (db, n)).2 =
      n + ps.countP (fun p => (buildEntityWith f p).isSome) := by
  induction ps generalizing db n with
  | nil => simp
  | cons p ps ih =>
    rw [List.foldl_cons, List.countP_cons]
    cases hb : buildEntityWith f p with
    | some e =>
        simp only [batchStep, hb]
        rw [ih]
        simp [hb]
        omega
    | none =>
        simp only [batchStep, hb]
        rw [ih]
        simp [hb]

theorem batch_foldl_state (f : String → List Int) (ps : List EntityPayload)
    (db : MillerDatabase) (n : Nat) :
    (ps.foldl (batchStep f) (db, n)).1.table =
      (ps.filterMap (buildEntityWith f)).foldl upsert db.table ∧
    (ps.foldl (batchStep f) (db, n)).1.inited = db.inited ∧
    (ps.foldl (batchStep f) (db, n)).1.faulty = db.faulty := by
  induction ps generalizing db n with
  | nil => simp
  | cons p ps ih =>
    rw [List.foldl_cons, List.filterMap_cons]
    cases hb : buildEntityWith f p with
    | some e =>
        simp only [batchStep, hb, List.foldl_cons]
        exact ih { db with table := upsert db.table e } (n + 1)
    | none =>
        simp only [batchStep, hb]
        exact ih db n

theorem mem_tableIds_foldl_upsert (es : List CodeEntity) (t : List CodeEntity) (i : String) :
    i ∈ tableIds (es.foldl upsert t) ↔ i ∈ tableIds t ∨ ∃ e ∈ es, e.id = i := by
  induction es generalizing t with
  | nil => simp
  | cons e es ih =>
    rw [List.foldl_cons, ih, mem_tableIds_upsert]
    constructor
    · rintro ((rfl | h) | ⟨x, hx, hxi⟩)
      · exact Or.inr ⟨e, List.mem_cons_self e es, rfl⟩
      · exact Or.inl h
      · exact Or.inr ⟨x, List.mem_cons_of_mem e hx, hxi⟩
    · rintro (h | ⟨x, hx, hxi⟩)
      · exact Or.inl (Or.inr h)
      · rcases List.mem_cons.mp hx with rfl | hx2
        · exact Or.inl (Or.inl hxi.symm)
        · exact Or.inr ⟨x, hx2, hxi⟩

/-- C2: `add_entities_batch` processes each item independently: the call
succeeds with the count of valid items, every valid item's id is
retrievable afterwards, and an invalid item is skipped — its id (when new
to the store and not produced by any valid item) remains unretrievable. -/
theorem add_entities_batch_independent (db : MillerDatabase) (ps : List EntityPayload)
    (hinit : db.inited = true) :
    add_entities_batch db ps = .ok (ps.foldl (batchStep embed) (db, 0)) ∧
    (ps.foldl (batchStep embed) (db, 0)).2 =
      ps.countP (fun p => (buildEntityWith embed p).isSome) ∧
    (∀ p ∈ ps, ∀ e, buildEntityWith embed p = some e →
      ∃ e', get_entity_by_id (ps.foldl (batchStep embed) (db, 0)).1 e.id = .ok (some e')) ∧
    (∀ q ∈ ps, buildEntityWith embed q = none →
      ∀ i, q.id = some i → i ∉ tableIds db.table → i ∉ builtIds embed ps →
      get_entity_by_id (ps.foldl (batchStep embed) (db, 0)).1 i = .ok none) := by
  have hstate := batch_foldl_state embed ps db 0
  have hinit2 : (ps.foldl (batchStep embed) (db, 0)).1.inited = true := by
    rw [hstate.2.1]; exact hinit
  refine ⟨?_, ?_, ?_, ?_⟩
  · rw [add_entities_batch, add_entities_batchWith, if_pos hinit]
  · simpa using batch_foldl_count embed ps db 0
  · intro p hp e hb
    have hmem : e.id ∈ tableIds (ps.foldl (batchStep embed) (db, 0)).1.table := by
      rw [hstate.1, mem_tableIds_foldl_upsert]
      exact Or.inr ⟨e, List.mem_filterMap.mpr ⟨p, hp, hb⟩, rfl⟩
    obtain ⟨x, hx⟩ := find?_isSome_of_mem_ids _ _ hmem
    exact ⟨x, by rw [get_entity_by_id, if_pos hinit2, hx]⟩
  · intro q _ _ i _ hnt hnb
    rw [get_entity_by_id, if_pos hinit2]
    have hfn : (ps.foldl (batchStep embed) (db, 0)).1.table.find? (fun e => e.id == i) = none := by
      rw [find?_eq_none_iff_ids, hstate.1, mem_tableIds_foldl_upsert]
      rintro (h | ⟨e, he, hei⟩)
      · exact hnt h
      · apply hnb
        obtain ⟨p2, hp2, hb2⟩ := List.mem_filterMap.mp he
        exact List.mem_filterMap.mpr ⟨p2, hp2, by rw [hb2]; simpa using hei⟩
    rw [hfn]

/-- Witness for C2: the concrete batch of one valid and one invalid item
returns count 1, the valid id is retrievable, the invalid id is not. -/
theorem add_entities_batch_independent_witness :
    (psW.foldl (batchStep embed) (dbOn, 0)).2 = 1 ∧
    (∃ e', get_entity_by_id (psW.foldl (batchStep embed) (dbOn, 0)).1 entV.id = .ok (some e')) ∧
    get_entity_by_id (psW.foldl (batchStep embed) (dbOn, 0)).1 "invalid_entity" = .ok none := by
  have hm := add_entities_batch_independent dbOn psW rfl
  refine ⟨?_, ?_, ?_⟩
  · rw [hm.2.1]; decide
  · exact hm.2.2.1 pV (List.mem_cons_self pV [invalidW]) entV rfl
  · exact hm.2.2.2 invalidW (List.mem_cons_of_mem pV (List.mem_cons_self invalidW []))
      rfl "invalid_entity" rfl (by decide) (by decide)

theorem textRaw_sublist (db : MillerDatabase) (q : String) (lim : Nat) :
    (textRaw db q lim).Sublist db.table := by
  rw [textRaw]
  split
  · exact List.nil_sublist _
  · exact (List.take_sublist _ _).trans (List.filter_sublist _)

theorem textRaw_ids_nodup (db : MillerDatabase) (q : String) (lim : Nat)
    (h : (tableIds db.table).Nodup) : (tableIds (textRaw db q lim)).Nodup :=
  List.Nodup.sublist (List.Sublist.map _ (textRaw_sublist db q lim)) h

theorem semRaw_ids_nodup (db : MillerDatabase) (q : String) (lim : Nat)
    (h : (tableIds db.table).Nodup) : (tableIds (semRaw db q lim)).Nodup := by
  rw [semRaw]
  split
  · simp [tableIds]
  · have hperm := List.perm_insertionSort
      (fun a b => dist2 (embed q) a.embedding ≤ dist2 (embed q) b.embedding) db.table
    have h2 : (tableIds (db.table.insertionSort
        (fun a b => dist2 (embed q) a.embedding ≤ dist2 (embed q) b.embedding))).Nodup :=
      (List.Perm.nodup_iff (hperm.map _)).mpr h
    exact List.Nodup.sublist (List.Sublist.map _ (List.take_sublist _ _)) h2

theorem dedup_append_card (a b : List String) :
    (a ++ b).dedup.length = (a.toFinset ∪ b.toFinset).card := by
  rw [← List.toFinset_append, List.card_toFinset]

theorem card_union_ge_left (a b : List String) (ha : a.Nodup) :
    a.length ≤ (a.toFinset ∪ b.toFinset).card := by
  have h1 : a.toFinset.card = a.length := by
    rw [List.card_toFinset, List.dedup_eq_self.mpr ha]
  rw [← h1]
  exact Finset.card_le_card Finset.subset_union_left

theorem card_union_ge_right (a b : List String) (hb : b.Nodup) :
    b.length ≤ (a.toFinset ∪ b.toFinset).card := by
  have h1 : b.toFinset.card = b.length := by
    rw [List.card_toFinset, List.dedup_eq_self.mpr hb]
  rw [← h1]
  exact Finset.card_le_card Finset.subset_union_right

/-- C6: on an initialized store `hybrid_search` returns both raw result
lists together with `combined_count`, which equals the cardinality of the
id-union of the two lists; hence it is at least the longer list's length
and at most the sum of both lengths. -/
theorem hybrid_search_combined_count_bounds (db : MillerDatabase) (q : String)
    (hinit : db.inited = true) (hnd : (tableIds db.table).Nodup) :
    hybrid_search db q = .ok (hybridRaw db q) ∧
    (hybridRaw db q).combined_count =
      ((tableIds (hybridRaw db q).text).toFinset ∪
        (tableIds (hybridRaw db q).semantic).toFinset).card ∧
    max (hybridRaw db q).text.length (hybridRaw db q).semantic.length ≤
      (hybridRaw db q).combined_count ∧
    (hybridRaw db q).combined_count ≤
      (hybridRaw db q).text.length + (hybridRaw db q).semantic.length := by
  have htn : (tableIds (textRaw db q 50)).Nodup := textRaw_ids_nodup db q 50 hnd
  have hsn : (tableIds (semRaw db q 50)).Nodup := semRaw_ids_nodup db q 50 hnd
  have hcc : (hybridRaw db q).combined_count =
      ((tableIds (textRaw db q 50)) ++ (tableIds (semRaw db q 50))).dedup.length := rfl
  refine ⟨by rw [hybrid_search, if_pos hinit], ?_, ?_, ?_⟩
  · rw [hcc, dedup_append_card]; rfl
  · have h1 : (hybridRaw db q).text.length ≤ (hybridRaw db q).combined_count := by
      rw [hcc, dedup_append_card]
      simpa [tableIds] using
        card_union_ge_left (tableIds (textRaw db q 50)) (tableIds (semRaw db q 50)) htn
    have h2 : (hybridRaw db q).semantic.length ≤ (hybridRaw db q).combined_count := by
      rw [hcc, dedup_append_card]
      simpa [tableIds] using
        card_union_ge_right (tableIds (textRaw db q 50)) (tableIds (semRaw db q 50)) hsn
    exact max_le h1 h2
  · rw [hcc]
    calc ((tableIds (textRaw db q 50)) ++ (tableIds (semRaw db q 50))).dedup.length
        ≤ ((tableIds (textRaw db q 50)) ++ (tableIds (semRaw db q 50))).length :=
          (List.dedup_sublist _).length_le
      _ = (hybridRaw db q).text.length + (hybridRaw db q).semantic.length := by
          simp [tableIds, hybridRaw]

/-- Witness for C6 on a concrete one-entity initialized store. -/
theorem hybrid_search_combined_count_bounds_witness :
    hybrid_search dbH "test_func" = .ok (hybridRaw dbH "test_func") ∧
    (hybridRaw dbH "test_func").combined_count =
      ((tableIds (hybridRaw dbH "test_func").text).toFinset ∪
        (tableIds (hybridRaw dbH "test_func").semantic).toFinset).card ∧
    max (hybridRaw dbH "test_func").text.length (hybridRaw dbH "test_func").semantic.length ≤
      (hybridRaw dbH "test_func").combined_count ∧
    (hybridRaw dbH "test_func").combined_count ≤
      (hybridRaw dbH "test_func").text.length + (hybridRaw dbH "test_func").semantic.length :=
  hybrid_search_combined_count_bounds dbH "test_func" rfl (by decide)

theorem interleavings_perm {α : Type} :
    ∀ (xs ys : List α) (z : List α), z ∈ interleavings xs ys → z.Perm (xs ++ ys)
  | [], ys, z, hz => by
      simp only [interleavings, List.mem_singleton] at hz
      subst hz
      simp
  | x :: xs, [], z, hz => by
      simp only [interleavings, List.mem_singleton] at hz
      subst hz
      simp
  | x :: xs, y :: ys, z, hz => by
      rw [interleavings] at hz
      rcases List.mem_append.mp hz with h | h
      · obtain ⟨l, hl, rfl⟩ := List.mem_map.mp h
        exact (interleavings_perm xs (y :: ys) l hl).cons x
      · obtain ⟨l, hl, rfl⟩ := List.mem_map.mp h
        refine ((interleavings_perm (x :: xs) ys l hl).cons y).trans ?_
        exact List.perm_middle.symm
termination_by xs ys => xs.length + ys.length

theorem append_mem_interleavings {α : Type} :
    ∀ (xs ys : List α), xs ++ ys ∈ interleavings xs ys
  | [], ys => by simp [interleavings]
  | x :: xs, [] => by simp [interleavings]
  | x :: xs, y :: ys => by
      rw [interleavings]
      refine List.mem_append.mpr (Or.inl ?_)
      exact List.mem_map.mpr ⟨xs ++ (y :: ys), append_mem_interleavings xs (y :: ys), rfl⟩
termination_by xs ys => xs.length + ys.length

theorem conc_foldl_state (f : String → List Int) (z : List (Bool × EntityPayload))
    (db : MillerDatabase) (a b : Nat) :
    (z.foldl (concStep f) (db, a, b)).1.table =
      (z.filterMap (fun it => buildEntityWith f it.2)).foldl upsert db.table ∧
    (z.foldl (concStep f) (db, a, b)).1.inited = db.inited ∧
    (z.foldl (concStep f) (db, a, b)).1.faulty = db.faulty := by
  induction z generalizing db a b with
  | nil => simp
  | cons it z ih =>
    rw [List.foldl_cons, List.filterMap_cons]
    cases hb : buildEntityWith f it.2 with
    | some e =>
        simp only [concStep, hb, List.foldl_cons]
        exact ih { db with table := upsert db.table e } _ _
    | none =>
        simp only [concStep, hb]
        exact ih db a b

theorem conc_foldl_counts (f : String → List Int) (z : List (Bool × EntityPayload))
    (db : MillerDatabase) (a b : Nat) :
    (z.foldl (concStep f) (db, a, b)).2.1 =
      a + z.countP (fun it => it.1 && (buildEntityWith f it.2).isSome) ∧
    (z.foldl (concStep f) (db, a, b)).2.2 =
      b + z.countP (fun it => !it.1 && (buildEntityWith f it.2).isSome) := by
  induction z generalizing db a b with
  | nil => simp
  | cons it z ih =>
    obtain ⟨tag, p⟩ := it
    rw [List.foldl_cons, List.countP_cons, List.countP_cons]
    cases hb : buildEntityWith f p with
    | some e =>
        cases tag
        · simp only [concStep, hb]
          constructor
          · rw [(ih { db with table := upsert db.table e } _ _).1]
            simp [hb]
          · rw [(ih { db with table := upsert db.table e } _ _).2]
            simp [hb]
            omega
        · simp only [concStep, hb]
          constructor
          · rw [(ih { db with table := upsert db.table e } _ _).1]
            simp [hb]
            omega
          · rw [(ih { db with table := upsert db.table e } _ _).2]
            simp [hb]
    | none =>
        simp only [concStep, hb]
        constructor
        · rw [(ih db a b).1]
          simp [hb]
        · rw [(ih db a b).2]
          simp [hb]

theorem upsert_fresh (t : List CodeEntity) (e : CodeEntity) (h : e.id ∉ tableIds t) :
    upsert t e = e :: t := by
  rw [upsert]
  congr 1
  apply List.filter_eq_self.mpr
  intro x hx
  simp only [decide_eq_true_eq]
  intro hxe
  exact h (by rw [← hxe]; exact List.mem_map.mpr ⟨x, hx, rfl⟩)

theorem foldl_upsert_length : ∀ (es : List CodeEntity) (t : List CodeEntity),
    (es.map (fun e => e.id)).Nodup → (∀ e ∈ es, e.id ∉ tableIds t) →
    (es.foldl upsert t).length = t.length + es.length
  | [], t, _, _ => by simp
  | e :: es, t, hnd, hf => by
      simp only [List.map_cons] at hnd
      have hnd2 := List.nodup_cons.mp hnd
      have hfr : ∀ x ∈ es, x.id ∉ tableIds (e :: t) := by
        intro x hx hmem
        simp only [tableIds, List.map_cons, List.mem_cons] at hmem
        rcases hmem with h1 | h2
        · exact hnd2.1 (by rw [← h1]; exact List.mem_map.mpr ⟨x, hx, rfl⟩)
        · exact hf x (List.mem_cons_of_mem e hx) h2
      rw [List.foldl_cons, upsert_fresh t e (hf e (List.mem_cons_self e es)),
        foldl_upsert_length es (e :: t) hnd2.2 hfr]
      simp only [List.length_cons]
      omega

theorem find?_filter_other (t : List CodeEntity) (a i : String) (hai : a ≠ i) :
    (t.filter (fun x => x.id ≠ a)).find? (fun x => x.id == i) =
      t.find? (fun x => x.id == i) := by
  induction t with
  | nil => rfl
  | cons x t ih =>
    by_cases hxa : x.id = a
    · rw [List.filter_cons_of_neg (by simp [hxa]), ih,
        List.find?_cons_of_neg _ (by simp [hxa, hai])]
    · rw [List.filter_cons_of_pos (by simp [hxa])]
      by_cases hxi : x.id = i
      · rw [List.find?_cons_of_pos _ (by simp [hxi]), List.find?_cons_of_pos _ (by simp [hxi])]
      · rw [List.find?_cons_of_neg _ (by simp [hxi]), List.find?_cons_of_neg _ (by simp [hxi]), ih]

theorem find?_foldl_upsert_preserve : ∀ (es : List CodeEntity) (t : List CodeEntity)
    (i : String) (v : CodeEntity), (∀ e ∈ es, e.id ≠ i) →
    t.find? (fun x => x.id == i) = some v →
    (es.foldl upsert t).find? (fun x => x.id == i) = some v
  | [], _, _, _, _, h => h
  | e :: es, t, i, v, hne, h => by
      rw [List.foldl_cons]
      apply find?_foldl_upsert_preserve es _ i v (fun x hx => hne x (List.mem_cons_of_mem e hx))
      rw [upsert, List.find?_cons_of_neg _ (by simp [hne e (List.mem_cons_self e es)]),
        find?_filter_other t e.id i (hne e (List.mem_cons_self e es))]
      exact h

theorem find?_foldl_upsert_self : ∀ (es : List CodeEntity) (t : List CodeEntity)
    (e : CodeEntity), e ∈ es → (es.map (fun x => x.id)).Nodup →
    (∀ x ∈ es, x.id ∉ tableIds t) →
    (es.foldl upsert t).find? (fun x => x.id == e.id) = some e
  | [], _, e, he, _, _ => absurd he (List.not_mem_nil e)
  | e0 :: es, t, e, he, hnd, hf => by
      simp only [List.map_cons] at hnd
      have hnd2 := List.nodup_cons.mp hnd
      rcases List.mem_cons.mp he with rfl | hmem
      · rw [List.foldl_cons]
        refine find?_foldl_upsert_preserve es (upsert t e) e.id e ?_ (find?_upsert t e)
        intro x hx hxe
        exact hnd2.1 (by rw [← hxe]; exact List.mem_map.mpr ⟨x, hx, rfl⟩)
      · rw [List.foldl_cons]
        refine find?_foldl_upsert_self es (upsert t e0) e hmem hnd2.2 ?_
        intro x hx hmem2
        rw [mem_tableIds_upsert] at hmem2
        rcases hmem2 with h1 | h2
        · exact hnd2.1 (by rw [← h1]; exact List.mem_map.mpr ⟨x, hx, rfl⟩)
        · exact hf x (List.mem_cons_of_mem e0 hx) h2

theorem length_filterMap_of_all_isSome (f : EntityPayload → Option CodeEntity) :
    ∀ (l : List EntityPayload), (∀ x ∈ l, (f x).isSome = true) →
    (l.filterMap f).length = l.length
  | [], _ => rfl
  | x :: l, h => by
      cases hf : f x with
      | none =>
          exact absurd (h x (List.mem_cons_self x l)) (by simp [hf])
      | some y =>
          rw [List.filterMap_cons_some hf, List.length_cons, List.length_cons,
            length_filterMap_of_all_isSome f l (fun x hx => h x (List.mem_cons_of_mem _ hx))]

/-- C8: when two batch ingestions over disjoint fresh id sets run
concurrently against one initialized healthy store — under any
interleaving of their item writes — both calls return the count of their
own items, every built record from both batches is retrievable by id, and
`get_statistics` reports a total grown by both batch sizes. -/
theorem concurrent_batches_disjoint_land (db : MillerDatabase)
    (b1 b2 : List EntityPayload) (z : List (Bool × EntityPayload))
    (hinit : db.inited = true) (hfault : db.faulty = false)
    (hv : ∀ p ∈ b1 ++ b2, (buildEntityWith embed p).isSome = true)
    (hnd : (builtIds embed (b1 ++ b2)).Nodup)
    (hfresh : ∀ i ∈ builtIds embed (b1 ++ b2), i ∉ tableIds db.table)
    (hz : z ∈ interleavings (b1.map (fun p => (true, p))) (b2.map (fun p => (false, p)))) :
    (runConcurrent embed db z).2.1 = b1.length ∧
    (runConcurrent embed db z).2.2 = b2.length ∧
    (∀ p ∈ b1 ++ b2, ∀ e, buildEntityWith embed p = some e →
      get_entity_by_id (runConcurrent embed db z).1 e.id = .ok (some e)) ∧
    get_statistics (runConcurrent embed db z).1 =
      .ok (computeStats (runConcurrent embed db z).1.table) ∧
    (computeStats (runConcurrent embed db z).1.table).total_entities =
      db.table.length + (b1.length + b2.length) := by
  have hperm : z.Perm (b1.map (fun p => (true, p)) ++ b2.map (fun p => (false, p))) :=
    interleavings_perm _ _ z hz
  have hstate := conc_foldl_state embed z db 0 0
  have hcounts := conc_foldl_counts embed z db 0 0
  have hesperm : (z.filterMap (fun it => buildEntityWith embed it.2)).Perm
      ((b1 ++ b2).filterMap (buildEntityWith embed)) := by
    have h1 := hperm.filterMap (fun it => buildEntityWith embed it.2)
    rw [List.filterMap_append, List.filterMap_map, List.filterMap_map] at h1
    rw [List.filterMap_append]
    exact h1
  have hidseq : ((b1 ++ b2).filterMap (buildEntityWith embed)).map (fun e => e.id) =
      builtIds embed (b1 ++ b2) := by
    rw [builtIds, List.map_filterMap]
  have hidsperm : ((z.filterMap (fun it => buildEntityWith embed it.2)).map
      (fun e => e.id)).Perm (builtIds embed (b1 ++ b2)) := by
    rw [← hidseq]
    exact hesperm.map _
  have hndz : ((z.filterMap (fun it => buildEntityWith embed it.2)).map
      (fun e => e.id)).Nodup := hidsperm.nodup_iff.mpr hnd
  have hfreshz : ∀ x ∈ z.filterMap (fun it => buildEntityWith embed it.2),
      x.id ∉ tableIds db.table := by
    intro x hx
    exact hfresh x.id (hidsperm.mem_iff.mp (List.mem_map.mpr ⟨x, hx, rfl⟩))
  have hinitz : (runConcurrent embed db z).1.inited = true := by
    rw [runConcurrent, hstate.2.1]
    exact hinit
  have hfaultz : (runConcurrent embed db z).1.faulty = false := by
    rw [runConcurrent, hstate.2.2]
    exact hfault
  have hlen : (runConcurrent embed db z).1.table.length =
      db.table.length + (b1.length + b2.length) := by
    rw [runConcurrent, hstate.1, foldl_upsert_length _ db.table hndz hfreshz,
      hesperm.length_eq, length_filterMap_of_all_isSome _ _ hv, List.length_append]
  refine ⟨?_, ?_, ?_, ?_, ?_⟩
  · rw [runConcurrent, hcounts.1, hperm.countP_eq, List.countP_append,
      List.countP_map, List.countP_map]
    have h1 : List.countP ((fun it => it.1 && (buildEntityWith embed it.2).isSome) ∘
        (fun p => ((true : Bool), p))) b1 = b1.length :=
      List.countP_eq_length.mpr (fun p hp => hv p (List.mem_append_left b2 hp))
    have h2 : List.countP ((fun it => it.1 && (buildEntityWith embed it.2).isSome) ∘
        (fun p => ((false : Bool), p))) b2 = 0 :=
      List.countP_eq_zero.mpr (fun p _ => by simp [Function.comp])
    rw [h1, h2]
    omega
  · rw [runConcurrent, hcounts.2, hperm.countP_eq, List.countP_append,
      List.countP_map, List.countP_map]
    have h1 : List.countP ((fun it => !it.1 && (buildEntityWith embed it.2).isSome) ∘
        (fun p => ((true : Bool), p))) b1 = 0 :=
      List.countP_eq_zero.mpr (fun p _ => by simp [Function.comp])
    have h2 : List.countP ((fun it => !it.1 && (buildEntityWith embed it.2).isSome) ∘
        (fun p => ((false : Bool), p))) b2 = b2.length :=
      List.countP_eq_length.mpr (fun p hp => hv p (List.mem_append_right b1 hp))
    rw [h1, h2]
    omega
  · intro p hp e he
    rw [get_entity_by_id, if_pos hinitz, runConcurrent, hstate.1,
      find?_foldl_upsert_self _ db.table e
        (hesperm.mem_iff.mpr (List.mem_filterMap.mpr ⟨p, hp, he⟩)) hndz hfreshz]
  · rw [get_statistics, if_pos hinitz, hfaultz]
    simp
  · rw [show (computeStats (runConcurrent embed db z).1.table).total_entities =
      (runConcurrent embed db z).1.table.length from rfl, hlen]

/-- Witness for C8: a concrete schedule of two ten-item batches with
disjoint fresh ids lands everything — both counts are 10 and the reported
total is 20. -/
theorem concurrent_batches_disjoint_land_witness :
    (runConcurrent embed dbOn zW).2.1 = 10 ∧
    (runConcurrent embed dbOn zW).2.2 = 10 ∧
    (computeStats (runConcurrent embed dbOn zW).1.table).total_entities = 20 := by
  have hm := concurrent_batches_disjoint_land dbOn b1W b2W zW rfl rfl
    (by decide) (by decide) (by decide) (append_mem_interleavings _ _)
  exact ⟨hm.1.trans rfl, hm.2.1.trans rfl, hm.2.2.2.2.trans rfl⟩

end Julie
